import Mathlib

/-!
Verification of the custom-error module found in
`src/src/components/SearchForm.js`: an error-type factory (`create`),
two built-in error types (`AbstractError`, `Block.ErrorNotFound`) and a
registry of error types (`Block`) with lazy, cached resolution.

The JavaScript code is shallowly embedded: error classes become values of
an inductive type `ErrType` carrying the same recorded metadata the code
stores on `CustomError.ce`; instances become explicit `Instance` records;
the mutable `Block` object becomes explicit state passing over
`BlockState`; the unbounded recursion of `Block.prototype.get` through
string parent references (which the source does not guard against cycles)
becomes a fuel-indexed function `getFuel`.

Modelling conventions, stated once:
* JavaScript message values are modelled by `JSVal` (`undefined`, `null`,
  strings, booleans); a construction routine is a `Construct` — the two
  concrete routines of the built-in types plus an uninterpreted `userFn`
  tag for arbitrary user routines, whose run is recorded on the instance.
* `typeof v === "function"` is modelled by which model values denote
  functions: every `ErrType` denotes a function, nothing else does.
* The `Block`'s own attribute namespace (`this[name] = ...`) is modelled
  by the `cache` association list together with the fixed list
  `protoMethodNames` of function-valued properties a fresh Block object
  inherits from its prototype chain; the non-function own properties
  `p` and `created` are kept as separate record fields.
-/

namespace CustomErrors

/-- JavaScript values that can appear as a message, default message or
constructor argument in the modelled code paths. -/
inductive JSVal where
  | undefined
  | null
  | str (s : String)
  | jsBool (b : Bool)
deriving DecidableEq

/-- A construction routine attachable to an error type: the two concrete
routines used by the module's built-in types, or an arbitrary user routine
identified only by a tag (its effect is recorded, not interpreted). -/
inductive Construct where
  | abstractMsg
  | notFoundMsg
  | userFn (id : Nat)
deriving DecidableEq

/-- An error class value: the root `Error` constructor, an arbitrary
non-created function (such as a Block prototype method, tagged by name),
or a class produced by `create`, carrying the metadata the source records
on `CustomError.ce` (lines 78-82): resolved parent, resolved default
message and resolved construction routine, plus the name and abstract
flag closed over by the constructor. -/
inductive ErrType where
  | rootError
  | jsFn (tag : String)
  | mk (name : String) (parent : ErrType) (defmessage : JSVal)
       (abstract : Bool) (construct : Option Construct)
deriving DecidableEq

namespace ErrType

/-- Whether the class has a `ce` metadata object (only created classes do;
`global.Error` and foreign functions do not). -/
def hasCe : ErrType → Bool
  | .mk _ _ _ _ _ => true
  | _ => false

/-- The recorded `ce.defmessage` (meaningful only when `hasCe`). -/
def ceDefmessage : ErrType → JSVal
  | .mk _ _ dm _ _ => dm
  | _ => .undefined

/-- The recorded `ce.construct`: the source records either a function or
`null`, modelled as `Option Construct`; absent `ce` yields `none`. -/
def ceConstruct : ErrType → Option Construct
  | .mk _ _ _ _ c => c
  | _ => none

/-- The recorded `ce.parent` as an option (root for non-created classes). -/
def parentOf : ErrType → Option ErrType
  | .mk _ p _ _ _ => some p
  | _ => none

/-- The display name of the class (`CustomError.prototype.name`). -/
def tyName : ErrType → String
  | .mk n _ _ _ _ => n
  | .rootError => "Error"
  | .jsFn tag => tag

/-- The abstract flag closed over by the constructor. -/
def isAbstract : ErrType → Bool
  | .mk _ _ _ a _ => a
  | _ => false

end ErrType

/-- The factory `create(name, parent, defmessage, abstract, construct)`
(source lines 42-88). `parent? = none` models a falsy parent argument
(`parent = parent || global.Error`). The default message is inherited
from the parent's recorded `ce.defmessage` when the given one is `null`
or `undefined` and the parent has a `ce`; the construction routine is
inherited from the parent's recorded `ce.construct` when the given one is
not a function. Both resolutions happen here, once, and the result is an
immutable record: nothing ever re-evaluates them. -/
def create (name : String) (parent? : Option ErrType) (defmessage : JSVal)
    (abstract : Bool) (construct? : Option Construct) : ErrType :=
  let parent := parent?.getD .rootError
  let dm := if (defmessage = .null ∨ defmessage = .undefined) ∧ parent.hasCe
    then parent.ceDefmessage else defmessage
  let con := match construct? with
    | some c => some c
    | none => parent.ceConstruct
  .mk name parent dm abstract con

/-- The `inherit` capability (source lines 117-123): `create` with the
parent implicitly set to the receiving class. -/
def ErrType.inherit (self : ErrType) (name : String) (defmessage : JSVal)
    (abstract : Bool) (construct? : Option Construct) : ErrType :=
  create name (some self) defmessage abstract construct?

/-- A constructed error instance: the prototype-supplied name and message
(`CustomError.prototype.name` / `.message`), the own `message` property if
one was assigned, the own `errorname` property the built-in routines
assign, and a record of an uninterpreted user routine having run. -/
structure Instance where
  typeName : String
  protoMessage : JSVal
  ownMessage : Option JSVal := none
  errorname : Option JSVal := none
  ranUser : Option (Nat × List JSVal) := none
deriving DecidableEq

/-- The effective `message` of an instance: the own property when
assigned, else the prototype's (JavaScript property shadowing). -/
def effMessage (i : Instance) : JSVal :=
  i.ownMessage.getD i.protoMessage

/-- JavaScript string coercion for the modelled values (used by the
built-in routines' string concatenation). -/
def jsToString : JSVal → String
  | .undefined => "undefined"
  | .null => "null"
  | .str s => s
  | .jsBool true => "true"
  | .jsBool false => "false"

/-- Run a construction routine on an instance with the constructor's
arguments. The two built-in routines (source lines 138-141 and 313-316)
assign `errorname` and a fixed message template; a user routine is
recorded uninterpreted. -/
def runConstruct (c : Construct) (args : List JSVal) (i : Instance) : Instance :=
  match c with
  | .abstractMsg =>
    let en := args.headD .undefined
    { i with errorname := some en,
             ownMessage := some (.str ("Error " ++ jsToString en ++ " is abstract")) }
  | .notFoundMsg =>
    let en := args.headD .undefined
    { i with errorname := some en,
             ownMessage := some (.str ("Error " ++ jsToString en ++ " is not found in block")) }
  | .userFn id => { i with ranUser := some (id, args) }

/-- The built-in `AbstractError` class (source lines 132-142). -/
def AbstractError : ErrType :=
  create "customErrors.AbstractError" none .undefined false (some .abstractMsg)

/-- The built-in `Block.ErrorNotFound` class (source lines 307-317). -/
def ErrorNotFoundTy : ErrType :=
  create "customErrors.ErrorNotFound" none .undefined false (some .notFoundMsg)

/-- The instance produced by `new AbstractError(errorname)`. -/
def abstractInstance (errorname : String) : Instance :=
  runConstruct .abstractMsg [.str errorname]
    { typeName := "customErrors.AbstractError", protoMessage := .undefined }

/-- The instance produced by `new Block.ErrorNotFound(errorname)`. -/
def notFoundInstance (errorname : String) : Instance :=
  runConstruct .notFoundMsg [.str errorname]
    { typeName := "customErrors.ErrorNotFound", protoMessage := .undefined }

/-- Instantiation, `new T(...args)` (the `CustomError` body, source lines
59-72): an abstract class throws a fresh `AbstractError` carrying the
class name before anything else can run; otherwise a custom routine, if
recorded, runs on the fresh instance; otherwise a non-`undefined`,
non-`null` first argument is stored verbatim as the own message.
`Except.error` is the instance thrown during construction. Invoking a
foreign function (a Block method) as a constructor fails on its first
property access, modelled as a thrown `TypeError` instance. -/
def instantiate : ErrType → List JSVal → Except Instance Instance
  | .rootError, args =>
    match args.headD .undefined with
    | .undefined => .ok { typeName := "Error", protoMessage := .str "" }
    | v => .ok { typeName := "Error", protoMessage := .str "",
                 ownMessage := some (.str (jsToString v)) }
  | .jsFn tag, _ =>
    .error { typeName := "TypeError", protoMessage := .str "",
             ownMessage := some (.str (tag ++ ": this.p is undefined")) }
  | .mk name _ dm abstract construct, args =>
    if abstract then .error (abstractInstance name)
    else
      let fresh : Instance := { typeName := name, protoMessage := dm }
      match construct with
      | some c => .ok (runConstruct c args fresh)
      | none =>
        match args.headD .undefined with
        | .undefined => .ok fresh
        | .null => .ok fresh
        | v => .ok { fresh with ownMessage := some v }

/-- The instance that escapes from `new T(message)`: the constructed one
on success, the one thrown during construction otherwise (used by
`Block.prototype.raise`, which rethrows whatever `new` produces). -/
def thrownOf (t : ErrType) (msg : JSVal) : Instance :=
  match instantiate t [msg] with
  | .ok i => i
  | .error i => i

/-! ## The Block registry -/

/-- A parent reference extracted from a descriptor, after the shape
normalization of `Block.prototype.get` (source lines 206-221): a function
value, a boolean, a string naming another entry of the same block, or any
other value (which the `switch` default rejects). -/
inductive ParentRef where
  | fn (t : ErrType)
  | pb (b : Bool)
  | ps (s : String)
  | other
deriving DecidableEq

/-- A descriptor as stored in the Block's error dictionary, in the three
accepted shapes: the ordered array form `[parent, defmessage, abstract]`
(absent elements modelled as `.undefined` / `false`), the object form with an
optional `parent` field plus `defmessage` / `abstract` / `construct`
fields, and a bare non-object value acting purely as a parent reference. -/
inductive Desc where
  | arr (p : ParentRef) (dm : JSVal) (abstract : Bool)
  | obj (parent : Option ParentRef) (dm : JSVal) (abstract : Bool)
        (construct : Option Construct)
  | bare (p : ParentRef)
deriving DecidableEq

/-- Shape normalization of `Block.prototype.get` (source lines 206-221):
the extracted parent reference together with the `defmessage`, `abstract`
and `construct` fields handed to `create`. An object descriptor without a
`parent` field yields the parent reference `true`; the array and bare
forms carry no `construct`. -/
def descParams : Desc → ParentRef × JSVal × Bool × Option Construct
  | .arr p dm ab => (p, dm, ab, none)
  | .obj p? dm ab c => (p?.getD (.pb true), dm, ab, c)
  | .bare p => (p, .undefined, false, none)

/-- The Block's stored base reference (`this.p.base`): a string name to be
materialized on first use, or an already-resolved class. -/
inductive BaseRef where
  | str (s : String)
  | fn (t : ErrType)
deriving DecidableEq

/-- The raw `base` argument of the Block constructor, before the
normalization of source lines 159-165. -/
inductive BaseArg where
  | undefined
  | null
  | jsBool (b : Bool)
  | jsStr (s : String)
  | num (n : Int)
  | fnVal (t : ErrType)
deriving DecidableEq

/-- Base-argument normalization (source lines 159-165): `undefined`,
`true` and `null` become the string `"Base"`; `false` becomes the root
`Error` class used directly; a function is kept; anything else is coerced
to its string representation. -/
def normalizeBase : BaseArg → BaseRef
  | .undefined => .str "Base"
  | .null => .str "Base"
  | .jsBool true => .str "Base"
  | .jsBool false => .fn .rootError
  | .jsStr s => .str s
  | .num n => .str (toString n)
  | .fnVal t => .fn t

/-- The function-valued properties a fresh `Block` object inherits from
its prototype chain: the four methods of `Block.prototype`, its
`constructor`, and the function properties of `Object.prototype` in
Node.js. Reading any of these names on a fresh Block yields a function,
which `get` returns as-is. -/
def protoMethodNames : List String :=
  ["get", "raise", "createAll", "getBase", "constructor",
   "hasOwnProperty", "isPrototypeOf", "propertyIsEnumerable",
   "toLocaleString", "toString", "valueOf",
   "__defineGetter__", "__defineSetter__",
   "__lookupGetter__", "__lookupSetter__"]

/-- The state of one Block object: the immutable descriptor dictionary
and namespace prefix from `this.p`, the (once-mutable) base reference,
the lazy and `created` flags, and the resolved classes stored directly on
the object (`this[name] = ...`), kept as an insertion-ordered association
list. -/
structure BlockState where
  errors : List (String × Desc)
  pfx : String
  base : BaseRef
  lazy : Bool
  created : Bool
  cache : List (String × ErrType)
deriving DecidableEq

/-- Keys of the resolved-class store. -/
def cacheKeys (b : BlockState) : List String :=
  b.cache.map Prod.fst

/-- Assignment `this[name] = t`: replace an existing entry in place or
append a new one (JavaScript property write). -/
def assocSet : List (String × ErrType) → String → ErrType → List (String × ErrType)
  | [], n, t => [(n, t)]
  | (m, u) :: rest, n, t =>
    if m = n then (n, t) :: rest else (m, u) :: assocSet rest n t

/-- Write a resolved class under `name` on behalf of the Block. -/
def setCache (b : BlockState) (name : String) (t : ErrType) : BlockState :=
  { b with cache := assocSet b.cache name t }

/-- The check `typeof this[name] === "function"` plus the read of
`this[name]`: a stored own property shadows the prototype methods; every
value this can yield is a function in the model. -/
def lookupProp (b : BlockState) (name : String) : Option ErrType :=
  match b.cache.find? (fun kv => kv.1 == name) with
  | some kv => some kv.2
  | none =>
    if name ∈ protoMethodNames then some (.jsFn name) else none

/-- `errors.hasOwnProperty(name)` and `errors[name]` combined. -/
def findDesc (errors : List (String × Desc)) (name : String) : Option Desc :=
  (errors.find? (fun kv => kv.1 == name)).map Prod.snd

/-- `Block.prototype.getBase` (source lines 281-291): a string base is
materialized exactly once as an abstract class named `<prefix><base>`
with empty default message, stored both under that name on the Block and
as the new base reference; a function base is returned unchanged. -/
def getBase (b : BlockState) : ErrType × BlockState :=
  match b.base with
  | .str s =>
    let bt := create (b.pfx ++ s) none (.str "") true none
    (bt, { setCache b s bt with base := .fn bt })
  | .fn t => (t, b)

/-- Errors escaping from a `get` call: a thrown instance, or fuel
exhaustion standing for the unbounded recursion a cyclic chain of string
parent references produces in the source. -/
inductive GetErr where
  | thrown (i : Instance)
  | fuelOut
deriving DecidableEq

/-- `Block.prototype.get` (source lines 188-237), fuel-indexed on the
recursive resolution of string parent references. An existing
function-valued property is returned at once; an unregistered name is
either the base name (materializing the base) or a thrown
`ErrorNotFound` carrying the prefixed name; a registered descriptor is
normalized and its parent reference dispatched: a function is stored and
returned as the resolved class itself, a boolean selects the base or no
parent, a string recursively resolves in the same block, anything else
throws `ErrorNotFound` with the "is not found in the block" text as the
constructor argument. Every resolution is stored under `name` before
returning. -/
def getFuel : Nat → BlockState → String → (Except GetErr ErrType) × BlockState
  | 0, b, _ => (.error .fuelOut, b)
  | fuel + 1, b, name =>
    match lookupProp b name with
    | some t => (.ok t, b)
    | none =>
      match findDesc b.errors name with
      | none =>
        if b.base = .str name then
          (.ok (getBase b).1, (getBase b).2)
        else
          (.error (.thrown (notFoundInstance (b.pfx ++ name))), b)
      | some desc =>
        match descParams desc with
        | (.fn t, _, _, _) => (.ok t, setCache b name t)
        | (.pb true, dm, ab, con) =>
          (.ok (create (b.pfx ++ name) (some (getBase b).1) dm ab con),
           setCache (getBase b).2 name
             (create (b.pfx ++ name) (some (getBase b).1) dm ab con))
        | (.pb false, dm, ab, con) =>
          (.ok (create (b.pfx ++ name) none dm ab con),
           setCache b name (create (b.pfx ++ name) none dm ab con))
        | (.ps s, dm, ab, con) =>
          match getFuel fuel b s with
          | (.ok p, b₁) =>
            (.ok (create (b.pfx ++ name) (some p) dm ab con),
             setCache b₁ name (create (b.pfx ++ name) (some p) dm ab con))
          | (.error e, b₁) => (.error e, b₁)
        | (.other, _, _, _) =>
          (.error (.thrown (notFoundInstance
            ("Error " ++ (b.pfx ++ name) ++ " is not found in the block"))), b)

/-- `Block.prototype.raise` (source lines 248-251): resolve via `get`,
then throw whatever `new`-ing the resolved class with the message
produces. `.ok i` is the deliberately raised instance. -/
def raiseFuel (fuel : Nat) (b : BlockState) (name : String) (msg : JSVal) :
    (Except GetErr Instance) × BlockState :=
  match getFuel fuel b name with
  | (.ok t, b₁) => (.ok (thrownOf t msg), b₁)
  | (.error e, b₁) => (.error e, b₁)

/-- The loop body of `createAll`: `get` each declared name in dictionary
order, stopping at the first thrown error. -/
def createAllGo : List String → Nat → BlockState → (Except GetErr Unit) × BlockState
  | [], _, b => (.ok (), b)
  | n :: ns, fuel, b =>
    match getFuel fuel b n with
    | (.ok _, b₁) => createAllGo ns fuel b₁
    | (.error e, b₁) => (.error e, b₁)

/-- `Block.prototype.createAll` (source lines 260-272): a no-op once
`created` is set; otherwise `get` every declared name in the dictionary's
iteration order and set `created`. -/
def createAllFuel (fuel : Nat) (b : BlockState) : (Except GetErr Unit) × BlockState :=
  if b.created then (.ok (), b)
  else
    match createAllGo (b.errors.map Prod.fst) fuel b with
    | (.ok _, b₁) => (.ok (), { b₁ with created := true })
    | (.error e, b₁) => (.error e, b₁)

/-- The `Block` constructor (source lines 158-177): normalize the base
argument, store the parameters, and, unless lazy, run `createAll`
immediately. -/
def mkBlock (fuel : Nat) (errors : List (String × Desc)) (ns : String)
    (base : BaseArg) (lazy : Bool) : (Except GetErr Unit) × BlockState :=
  let b : BlockState :=
    { errors := errors,
      pfx := if ns = "" then "" else ns ++ ".",
      base := normalizeBase base,
      lazy := lazy,
      created := false,
      cache := [] }
  if lazy then (.ok (), b) else createAllFuel fuel b

/-! ## Ancestor chains and the specified inheritance of defaults (C1) -/

/-- A creation descriptor for one link of an ancestor chain built by
repeated `create` calls. -/
structure ChainDesc where
  name : String
  dm : JSVal
  abstract : Bool
  construct : Option Construct
deriving DecidableEq

/-- Build a class from a chain of descriptors, newest first, by calling
`create` with each one on top of the previously created parent; the empty
chain is the root `Error`. -/
def buildChain : List ChainDesc → ErrType
  | [] => .rootError
  | d :: ds => create d.name (some (buildChain ds)) d.dm d.abstract d.construct

/-- Modelled from the spec's words, for comparison with `create`: the
default message of the nearest chain member that defines one explicitly
(a value that is neither `null` nor `undefined`), searched newest first;
`none` when no member defines one. -/
def specNearestDefmessage : List ChainDesc → Option JSVal
  | [] => none
  | d :: ds =>
    if d.dm = .null ∨ d.dm = .undefined then specNearestDefmessage ds else some d.dm

/-- Modelled from the spec's words, for comparison with `create`: the
construction routine of the nearest chain member whose descriptor carries
a function, searched newest first. -/
def specNearestConstruct : List ChainDesc → Option Construct
  | [] => none
  | d :: ds =>
    match d.construct with
    | some c => some c
    | none => specNearestConstruct ds

/-! ## Reference resolution without a cache

`rres` recomputes, from the Block's immutable configuration alone, the
class `get` resolves for a name; it is the value the memoizing cache of a
well-configured Block is shown to agree with. -/

/-- The base class a configuration determines: a string base names a
fresh abstract class under the prefix, a function base is itself. -/
def baseTyOf (P : String) : BaseRef → ErrType
  | .str s => create (P ++ s) none (.str "") true none
  | .fn t => t

/-- Cache-free resolution of a name against a fixed configuration
(descriptor dictionary `E`, prefix `P`, base reference `B0`), following
exactly the branches of `getFuel` on a fresh Block; `none` stands for a
thrown error or non-termination. -/
def rres (E : List (String × Desc)) (P : String) (B0 : BaseRef) :
    Nat → String → Option ErrType
  | 0, _ => none
  | fuel + 1, name =>
    if name ∈ protoMethodNames then some (.jsFn name)
    else
      match findDesc E name with
      | none => if B0 = .str name then some (baseTyOf P B0) else none
      | some desc =>
        match descParams desc with
        | (.fn t, _, _, _) => some t
        | (.pb true, dm, ab, con) =>
          some (create (P ++ name) (some (baseTyOf P B0)) dm ab con)
        | (.pb false, dm, ab, con) => some (create (P ++ name) none dm ab con)
        | (.ps s, dm, ab, con) =>
          (rres E P B0 fuel s).map (fun p => create (P ++ name) (some p) dm ab con)
        | (.other, _, _, _) => none

/-- The configuration is free of base-name collisions: a string base
names neither a declared descriptor nor an inherited function property. -/
def BaseNameFree (E : List (String × Desc)) (B0 : BaseRef) : Prop :=
  ∀ s, B0 = .str s → findDesc E s = none ∧ s ∉ protoMethodNames

/-- A Block state is faithful to the configuration `(E, P, B0)`: its
immutable parts match, its base is either still unresolved or resolved to
the configuration's base class, and every stored class is the cache-free
resolution of its name. -/
def Inv (E : List (String × Desc)) (P : String) (B0 : BaseRef)
    (b : BlockState) : Prop :=
  b.errors = E ∧ b.pfx = P ∧
  (b.base = B0 ∨ b.base = .fn (baseTyOf P B0)) ∧
  ∀ kv ∈ b.cache, ∃ f, rres E P B0 f kv.1 = some kv.2

/-! ## Concrete Blocks used by the example scenarios -/

/-- The base class of the example scenario of the spec. -/
def apiBase : ErrType := create "api.Base" none (.str "") true none

/-- The `api.NotFound` class of the example scenario. -/
def apiNotFound : ErrType :=
  create "api.NotFound" (some apiBase) (.str "missing") false none

/-- The `api.Invalid` class of the example scenario. -/
def apiInvalid : ErrType :=
  create "api.Invalid" (some apiNotFound) (.str "bad input") false none

/-- The descriptor dictionary of the example scenario:
`{NotFound: [true, "missing"], Invalid: ["NotFound", "bad input"]}`. -/
def c5errors : List (String × Desc) :=
  [("NotFound", .arr (.pb true) (.str "missing") false),
   ("Invalid", .arr (.ps "NotFound") (.str "bad input") false)]

/-- The Block of the example scenario: the descriptors above, namespace
`"api"`, base `"Base"`, lazy. -/
def blockC5 : BlockState :=
  (mkBlock 0 c5errors "api" (.jsStr "Base") true).2

/-- A lazy Block whose base name `"Base"` is also a declared descriptor
key, the collision that lets a later base materialization overwrite an
already-resolved entry. -/
def blockColl : BlockState :=
  (mkBlock 0 [("Base", .arr (.pb false) .undefined false),
              ("X", .arr (.pb true) .undefined false)]
    "api" .undefined true).2

/-- A class used as a bare function-valued descriptor. -/
def plainT : ErrType := create "T" none (.str "tm") false none

/-- A lazy Block whose single descriptor is a bare function value. -/
def blockFnDesc : BlockState :=
  (mkBlock 0 [("X", .bare (.fn plainT))] "api" .undefined true).2

/-- A lazy Block whose single descriptor is an object form without a
`parent` field. -/
def blockObjNoParent : BlockState :=
  (mkBlock 0 [("Y", .obj none (.str "m") false none)] "api" .undefined true).2

/-- A lazy Block declaring an abstract type. -/
def blockAbsDesc : BlockState :=
  (mkBlock 0 [("X", .arr (.pb true) .undefined true)] "api" .undefined true).2

/-- A lazy Block whose single descriptor key collides with the Block
method name `raise`. -/
def blockMethodKey : BlockState :=
  (mkBlock 0 [("raise", .arr (.pb true) (.str "boom") false)] "" .undefined true).2

/-- A lazy Block whose single descriptor is a bare value of a type the
parent-reference switch rejects. -/
def blockBadDesc : BlockState :=
  (mkBlock 0 [("X", .bare .other)] "api" .undefined true).2

/-! ## Supporting lemmas -/

theorem assocSet_find_self (l : List (String × ErrType)) (n : String) (t : ErrType) :
    (assocSet l n t).find? (fun kv => kv.1 == n) = some (n, t) := by
  induction l with
  | nil => simp [assocSet]
  | cons hd tl ih =>
    obtain ⟨m, u⟩ := hd
    by_cases hm : m = n
    · subst hm
      simp [assocSet]
    · rw [assocSet, if_neg hm, List.find?]
      have : ((m, u).1 == n) = false := beq_eq_false_iff_ne.mpr hm
      rw [this]
      exact ih

theorem mem_assocSet {l : List (String × ErrType)} {n : String} {t : ErrType}
    {x : String × ErrType} (hx : x ∈ assocSet l n t) : x = (n, t) ∨ x ∈ l := by
  induction l with
  | nil => simpa [assocSet] using hx
  | cons hd tl ih =>
    obtain ⟨m, u⟩ := hd
    by_cases hm : m = n
    · subst hm
      rw [assocSet, if_pos rfl] at hx
      rcases List.mem_cons.mp hx with h | h
      · exact Or.inl h
      · exact Or.inr (List.mem_cons_of_mem _ h)
    · rw [assocSet, if_neg hm] at hx
      rcases List.mem_cons.mp hx with h | h
      · exact Or.inr (h ▸ List.mem_cons_self _ _)
      · rcases ih h with h' | h'
        · exact Or.inl h'
        · exact Or.inr (List.mem_cons_of_mem _ h')

theorem keys_assocSet_of_mem {l : List (String × ErrType)} {n k : String}
    {t : ErrType} (hk : k ∈ l.map Prod.fst) :
    k ∈ (assocSet l n t).map Prod.fst := by
  induction l with
  | nil => simp at hk
  | cons hd tl ih =>
    obtain ⟨m, u⟩ := hd
    by_cases hm : m = n
    · subst hm
      rw [assocSet, if_pos rfl]
      simpa using hk
    · rw [assocSet, if_neg hm]
      rcases List.mem_map.mp hk with ⟨kv, hkv, hfst⟩
      rcases List.mem_cons.mp hkv with h | h
      · subst h; subst hfst; simp
      · have := ih (List.mem_map.mpr ⟨kv, h, hfst⟩)
        simpa using Or.inr (List.mem_map.mp this)

theorem keys_assocSet_sub {l : List (String × ErrType)} {n k : String}
    {t : ErrType} (hk : k ∈ (assocSet l n t).map Prod.fst) :
    k = n ∨ k ∈ l.map Prod.fst := by
  rcases List.mem_map.mp hk with ⟨kv, hkv, hfst⟩
  rcases mem_assocSet hkv with h | h
  · subst h; exact Or.inl hfst.symm
  · exact Or.inr (List.mem_map.mpr ⟨kv, h, hfst⟩)

theorem find?_key_of_some {l : List (String × ErrType)} {k : String}
    {kv : String × ErrType} (h : l.find? (fun kv => kv.1 == k) = some kv) :
    kv.1 = k ∧ kv ∈ l := by
  refine ⟨?_, List.mem_of_find?_eq_some h⟩
  have := List.find?_some h
  simpa using this

theorem find?_of_mem_keys {l : List (String × ErrType)} {k : String}
    (h : k ∈ l.map Prod.fst) :
    ∃ kv, l.find? (fun kv => kv.1 == k) = some kv := by
  induction l with
  | nil => simp at h
  | cons hd tl ih =>
    by_cases hk : hd.1 = k
    · exact ⟨hd, by rw [List.find?]; rw [beq_iff_eq.mpr hk]⟩
    · have : k ∈ tl.map Prod.fst := by
        rcases List.mem_map.mp h with ⟨kv, hkv, hfst⟩
        rcases List.mem_cons.mp hkv with h' | h'
        · exact absurd (h' ▸ hfst) hk
        · exact List.mem_map.mpr ⟨kv, h', hfst⟩
      rcases ih this with ⟨kv, hkv⟩
      refine ⟨kv, ?_⟩
      rw [List.find?]
      rw [beq_eq_false_iff_ne.mpr hk]
      exact hkv

theorem not_mem_keys_of_find?_none {l : List (String × ErrType)} {k : String}
    (h : l.find? (fun kv => kv.1 == k) = none) : k ∉ l.map Prod.fst := by
  intro hk
  rcases find?_of_mem_keys hk with ⟨kv, hkv⟩
  rw [h] at hkv
  cases hkv

theorem lookupProp_none_elim {b : BlockState} {n : String}
    (h : lookupProp b n = none) :
    b.cache.find? (fun kv => kv.1 == n) = none ∧ n ∉ protoMethodNames := by
  unfold lookupProp at h
  cases hf : b.cache.find? (fun kv => kv.1 == n) with
  | some kv => rw [hf] at h; cases h
  | none =>
    rw [hf] at h
    refine ⟨rfl, fun hm => ?_⟩
    rw [if_pos hm] at h
    cases h

theorem lookupProp_setCache_self (b : BlockState) (n : String) (t : ErrType) :
    lookupProp (setCache b n t) n = some t := by
  unfold lookupProp setCache
  rw [assocSet_find_self]

theorem lookupProp_eq_of_cache {b c : BlockState} (h : b.cache = c.cache)
    (n : String) : lookupProp b n = lookupProp c n := by
  unfold lookupProp
  rw [h]

theorem getBase_str {b : BlockState} {s : String} (hs : b.base = .str s) :
    getBase b = (create (b.pfx ++ s) none (.str "") true none,
      { setCache b s (create (b.pfx ++ s) none (.str "") true none)
        with base := .fn (create (b.pfx ++ s) none (.str "") true none) }) := by
  unfold getBase
  rw [hs]

theorem getBase_fn {b : BlockState} {t : ErrType} (ht : b.base = .fn t) :
    getBase b = (t, b) := by
  unfold getBase
  rw [ht]

/-- After a successful `get`, the returned class is stored under the
requested name (or was already the value of that property). -/
theorem lookupAfterGet :
    ∀ {fuel : Nat} {b : BlockState} {name : String} {t : ErrType} {b' : BlockState},
      getFuel fuel b name = (.ok t, b') → lookupProp b' name = some t := by
  intro fuel b name t b' h
  match fuel with
  | 0 =>
    rw [getFuel] at h
    exact absurd (congrArg Prod.fst h) (by simp)
  | fuel + 1 =>
    rw [getFuel] at h
    split at h
    · rename_i t₀ heq
      obtain ⟨h1, h2⟩ := Prod.mk.injEq .. |>.mp h
      cases h1
      rw [← h2]
      exact heq
    · rename_i heq
      split at h
      · split at h
        · rename_i hbase
          rw [getBase_str hbase] at h
          obtain ⟨h1, h2⟩ := Prod.mk.injEq .. |>.mp h
          cases h1
          rw [← h2]
          exact lookupProp_setCache_self ..
        · exact absurd (congrArg Prod.fst h) (by simp)
      · split at h
        · obtain ⟨h1, h2⟩ := Prod.mk.injEq .. |>.mp h
          cases h1
          rw [← h2]
          exact lookupProp_setCache_self ..
        · obtain ⟨h1, h2⟩ := Prod.mk.injEq .. |>.mp h
          cases h1
          rw [← h2]
          exact lookupProp_setCache_self ..
        · obtain ⟨h1, h2⟩ := Prod.mk.injEq .. |>.mp h
          cases h1
          rw [← h2]
          exact lookupProp_setCache_self ..
        · split at h
          · obtain ⟨h1, h2⟩ := Prod.mk.injEq .. |>.mp h
            cases h1
            rw [← h2]
            exact lookupProp_setCache_self ..
          · exact absurd (congrArg Prod.fst h) (by simp)
        · exact absurd (congrArg Prod.fst h) (by simp)

theorem rres_succ (E : List (String × Desc)) (P : String) (B0 : BaseRef) :
    ∀ fuel name t, rres E P B0 fuel name = some t →
      rres E P B0 (fuel + 1) name = some t := by
  intro fuel
  induction fuel with
  | zero =>
    intro name t h
    rw [rres] at h
    cases h
  | succ f ih =>
    intro name t h
    rw [rres] at h
    rw [rres]
    split at h
    · rename_i hm
      rw [if_pos hm]
      exact h
    · rename_i hm
      rw [if_neg hm]
      split at h
      · exact h
      · split at h
        · exact h
        · exact h
        · exact h
        · rename_i s dm ab con heqd
          obtain ⟨p, hp, hgp⟩ := Option.map_eq_some'.mp h
          exact Option.map_eq_some'.mpr ⟨p, ih s p hp, hgp⟩
        · exact h

theorem rres_le (E : List (String × Desc)) (P : String) (B0 : BaseRef)
    {f g : Nat} (hfg : f ≤ g) :
    ∀ {name t}, rres E P B0 f name = some t → rres E P B0 g name = some t := by
  induction hfg with
  | refl => intro name t h; exact h
  | step _ ih => intro name t ht; exact rres_succ E P B0 _ _ _ (ih ht)

theorem rres_det (E : List (String × Desc)) (P : String) (B0 : BaseRef)
    {f g : Nat} {name : String} {t t' : ErrType}
    (h1 : rres E P B0 f name = some t) (h2 : rres E P B0 g name = some t') :
    t = t' := by
  rcases Nat.le_total f g with h | h
  · have h3 := rres_le E P B0 h h1
    rw [h3] at h2
    exact Option.some.inj h2
  · have h3 := rres_le E P B0 h h2
    rw [h1] at h3
    exact Option.some.inj h3

theorem Inv_setCache {E : List (String × Desc)} {P : String} {B0 : BaseRef}
    {b : BlockState} (hInv : Inv E P B0 b) {n : String} {t : ErrType}
    (hres : ∃ f, rres E P B0 f n = some t) :
    Inv E P B0 (setCache b n t) := by
  obtain ⟨hE, hP, hB, hC⟩ := hInv
  refine ⟨hE, hP, hB, fun kv hkv => ?_⟩
  rcases mem_assocSet hkv with h | h
  · subst h; exact hres
  · exact hC kv h

theorem keys_setCache_up {b : BlockState} {n k : String} {t : ErrType}
    (h : k ∈ cacheKeys b) : k ∈ cacheKeys (setCache b n t) :=
  keys_assocSet_of_mem h

theorem keys_setCache_sub {b : BlockState} {n k : String} {t : ErrType}
    (h : k ∈ cacheKeys (setCache b n t)) : k = n ∨ k ∈ cacheKeys b :=
  keys_assocSet_sub h

theorem base_str_of_Inv {E : List (String × Desc)} {P : String} {B0 : BaseRef}
    {b : BlockState} (hInv : Inv E P B0 b) {s : String}
    (h : b.base = .str s) : B0 = .str s := by
  rcases hInv.2.2.1 with hB | hB
  · rw [← hB]; exact h
  · rw [hB] at h; cases h

theorem lookupConsistent {E : List (String × Desc)} {P : String} {B0 : BaseRef}
    {b : BlockState} {n : String} {t : ErrType} (hInv : Inv E P B0 b)
    (h : lookupProp b n = some t) : ∃ f, rres E P B0 f n = some t := by
  unfold lookupProp at h
  cases hf : b.cache.find? (fun kv => kv.1 == n) with
  | some kv =>
    rw [hf] at h
    obtain ⟨hk, hm⟩ := find?_key_of_some hf
    obtain ⟨f, hr⟩ := hInv.2.2.2 kv hm
    refine ⟨f, ?_⟩
    rw [hk] at hr
    rw [hr]
    exact congrArg some (Option.some.inj h)
  | none =>
    rw [hf] at h
    by_cases hm : n ∈ protoMethodNames
    · rw [if_pos hm] at h
      refine ⟨1, ?_⟩
      rw [rres, if_pos hm]
      exact h
    · rw [if_neg hm] at h
      cases h

theorem getBaseSpec {E : List (String × Desc)} {P : String} {B0 : BaseRef}
    (hfree : BaseNameFree E B0) {b : BlockState} (hInv : Inv E P B0 b) :
    (getBase b).1 = baseTyOf P B0 ∧ Inv E P B0 (getBase b).2 ∧
    (∀ k, k ∈ cacheKeys b → k ∈ cacheKeys (getBase b).2) ∧
    (∀ k, k ∈ cacheKeys (getBase b).2 → k ∈ cacheKeys b ∨ k ∉ protoMethodNames) := by
  obtain ⟨hE, hP, hB, hC⟩ := hInv
  have hcases : (∃ s, B0 = .str s) ∨ (∃ t, B0 = .fn t) := by
    cases B0 with
    | str s => exact Or.inl ⟨s, rfl⟩
    | fn t => exact Or.inr ⟨t, rfl⟩
  rcases hB with hB | hB
  · rcases hcases with ⟨s, hBc⟩ | ⟨t, hBc⟩
    · have hbs : b.base = .str s := hB.trans hBc
      obtain ⟨hfd, hfm⟩ := hfree s hBc
      rw [getBase_str hbs]
      have hbt : create (b.pfx ++ s) none (.str "") true none = baseTyOf P B0 := by
        rw [hP, hBc]
        rfl
      refine ⟨hbt, ⟨hE, hP, Or.inr (congrArg BaseRef.fn hbt), ?_⟩, ?_, ?_⟩
      · intro kv hkv
        rcases mem_assocSet hkv with h | h
        · subst h
          refine ⟨1, ?_⟩
          simp only [rres, hfd, if_neg hfm, if_pos hBc]
          exact congrArg some hbt.symm
        · exact hC kv h
      · intro k hk
        exact keys_assocSet_of_mem hk
      · intro k hk
        rcases keys_assocSet_sub hk with h | h
        · subst h; exact Or.inr hfm
        · exact Or.inl h
    · rw [getBase_fn (hB.trans hBc)]
      refine ⟨?_, ⟨hE, hP, Or.inl hB, hC⟩, fun k hk => hk, fun k hk => Or.inl hk⟩
      rw [hBc]
      rfl
  · rw [getBase_fn hB]
    exact ⟨rfl, ⟨hE, hP, Or.inr hB, hC⟩, fun k hk => hk, fun k hk => Or.inl hk⟩

/-- Preservation: on a base-collision-free configuration, `get` keeps a
Block faithful to its configuration, returns only cache-free resolution
values, never removes stored names, and adds no method-named entries. -/
theorem getStep {E : List (String × Desc)} {P : String} {B0 : BaseRef}
    (hfree : BaseNameFree E B0) :
    ∀ fuel (b : BlockState) (n : String) (r : Except GetErr ErrType) (b' : BlockState),
      Inv E P B0 b → getFuel fuel b n = (r, b') →
      Inv E P B0 b' ∧
      (∀ t, r = .ok t → ∃ f, rres E P B0 f n = some t) ∧
      (∀ k, k ∈ cacheKeys b → k ∈ cacheKeys b') ∧
      (∀ k, k ∈ cacheKeys b' → k ∈ cacheKeys b ∨ k ∉ protoMethodNames) := by
  intro fuel
  induction fuel with
  | zero =>
    intro b n r b' hInv h
    rw [getFuel] at h
    obtain ⟨h1, h2⟩ := Prod.mk.injEq .. |>.mp h
    subst h2
    refine ⟨hInv, ?_, fun k hk => hk, fun k hk => Or.inl hk⟩
    intro t ht
    rw [← h1] at ht
    exact Except.noConfusion ht
  | succ f ih =>
    intro b n r b' hInv h
    rw [getFuel] at h
    split at h
    · rename_i t₀ heq
      obtain ⟨h1, h2⟩ := Prod.mk.injEq .. |>.mp h
      subst h2
      refine ⟨hInv, ?_, fun k hk => hk, fun k hk => Or.inl hk⟩
      intro t ht
      rw [← h1] at ht
      injection ht with ht'
      subst ht'
      exact lookupConsistent hInv heq
    · rename_i heq
      obtain ⟨hfind, hmem⟩ := lookupProp_none_elim heq
      split at h
      · rename_i hd
        have hdE : findDesc E n = none := by rw [← hInv.1]; exact hd
        split at h
        · rename_i hbase
          have hB0 := base_str_of_Inv hInv hbase
          obtain ⟨g1, gInv, gup, gsub⟩ := getBaseSpec hfree hInv
          obtain ⟨h1, h2⟩ := Prod.mk.injEq .. |>.mp h
          subst h2
          refine ⟨gInv, ?_, gup, gsub⟩
          intro t ht
          rw [← h1] at ht
          injection ht with ht'
          subst ht'
          refine ⟨1, ?_⟩
          rw [g1]
          simp only [rres, if_neg hmem, hdE, if_pos hB0]
        · obtain ⟨h1, h2⟩ := Prod.mk.injEq .. |>.mp h
          subst h2
          refine ⟨hInv, ?_, fun k hk => hk, fun k hk => Or.inl hk⟩
          intro t ht
          rw [← h1] at ht
          exact Except.noConfusion ht
      · rename_i desc hd
        have hdE : findDesc E n = some desc := by rw [← hInv.1]; exact hd
        split at h
        · rename_i t₀ x1 x2 x3 heqd
          obtain ⟨h1, h2⟩ := Prod.mk.injEq .. |>.mp h
          subst h2
          have hres : ∃ fq, rres E P B0 fq n = some t₀ := by
            refine ⟨1, ?_⟩
            simp only [rres, if_neg hmem, hdE, heqd]
          refine ⟨Inv_setCache hInv hres, ?_, fun k hk => keys_setCache_up hk, ?_⟩
          · intro t ht
            rw [← h1] at ht
            injection ht with ht'
            subst ht'
            exact hres
          · intro k hk
            rcases keys_setCache_sub hk with h' | h'
            · subst h'; exact Or.inr hmem
            · exact Or.inl h'
        · rename_i dm ab con heqd
          obtain ⟨g1, gInv, gup, gsub⟩ := getBaseSpec hfree hInv
          obtain ⟨h1, h2⟩ := Prod.mk.injEq .. |>.mp h
          subst h2
          have hres : ∃ fq, rres E P B0 fq n
              = some (create (b.pfx ++ n) (some (getBase b).1) dm ab con) := by
            refine ⟨1, ?_⟩
            simp only [rres, if_neg hmem, hdE, heqd]
            rw [g1, hInv.2.1]
          refine ⟨Inv_setCache gInv hres, ?_, ?_, ?_⟩
          · intro t ht
            rw [← h1] at ht
            injection ht with ht'
            subst ht'
            exact hres
          · intro k hk
            exact keys_setCache_up (gup k hk)
          · intro k hk
            rcases keys_setCache_sub hk with h' | h'
            · subst h'; exact Or.inr hmem
            · exact gsub k h'
        · rename_i dm ab con heqd
          obtain ⟨h1, h2⟩ := Prod.mk.injEq .. |>.mp h
          subst h2
          have hres : ∃ fq, rres E P B0 fq n
              = some (create (b.pfx ++ n) none dm ab con) := by
            refine ⟨1, ?_⟩
            simp only [rres, if_neg hmem, hdE, heqd]
            rw [hInv.2.1]
          refine ⟨Inv_setCache hInv hres, ?_, fun k hk => keys_setCache_up hk, ?_⟩
          · intro t ht
            rw [← h1] at ht
            injection ht with ht'
            subst ht'
            exact hres
          · intro k hk
            rcases keys_setCache_sub hk with h' | h'
            · subst h'; exact Or.inr hmem
            · exact Or.inl h'
        · rename_i s dm ab con heqd
          split at h
          · rename_i p b₁ heqr
            obtain ⟨ihInv, ihok, ihup, ihsub⟩ := ih b s _ _ hInv heqr
            obtain ⟨h1, h2⟩ := Prod.mk.injEq .. |>.mp h
            subst h2
            obtain ⟨fp, hfp⟩ := ihok p rfl
            have hres : ∃ fq, rres E P B0 fq n
                = some (create (b.pfx ++ n) (some p) dm ab con) := by
              refine ⟨fp + 1, ?_⟩
              simp only [rres, if_neg hmem, hdE, heqd]
              rw [hfp]
              simp only [Option.map_some']
              rw [hInv.2.1]
            refine ⟨Inv_setCache ihInv hres, ?_, ?_, ?_⟩
            · intro t ht
              rw [← h1] at ht
              injection ht with ht'
              subst ht'
              exact hres
            · intro k hk
              exact keys_setCache_up (ihup k hk)
            · intro k hk
              rcases keys_setCache_sub hk with h' | h'
              · subst h'; exact Or.inr hmem
              · exact ihsub k h'
          · rename_i e b₁ heqr
            obtain ⟨ihInv, ihok, ihup, ihsub⟩ := ih b s _ _ hInv heqr
            obtain ⟨h1, h2⟩ := Prod.mk.injEq .. |>.mp h
            subst h2
            refine ⟨ihInv, ?_, ihup, ihsub⟩
            intro t ht
            rw [← h1] at ht
            exact Except.noConfusion ht
        · obtain ⟨h1, h2⟩ := Prod.mk.injEq .. |>.mp h
          subst h2
          refine ⟨hInv, ?_, fun k hk => hk, fun k hk => Or.inl hk⟩
          intro t ht
          rw [← h1] at ht
          exact Except.noConfusion ht

theorem mem_cacheKeys_of_find? {b : BlockState} {n : String} {kv : String × ErrType}
    (hf : b.cache.find? (fun kv => kv.1 == n) = some kv) : n ∈ cacheKeys b := by
  obtain ⟨hk1, hk2⟩ := find?_key_of_some hf
  exact List.mem_map.mpr ⟨kv, hk2, hk1⟩

theorem find?_none_of_not_mem_keys {l : List (String × ErrType)} {k : String}
    (h : k ∉ l.map Prod.fst) : l.find? (fun kv => kv.1 == k) = none := by
  cases hff : l.find? (fun kv => kv.1 == k) with
  | none => rfl
  | some kv =>
    obtain ⟨hk1, hk2⟩ := find?_key_of_some hff
    exact absurd (List.mem_map.mpr ⟨kv, hk2, hk1⟩) h

/-- A name readable as a function property before a `get` call is still
readable after it (possibly with an updated value). -/
theorem lookupPersist {E : List (String × Desc)} {P : String} {B0 : BaseRef}
    (hfree : BaseNameFree E B0) {fuel : Nat} {b : BlockState} {m : String}
    {r : Except GetErr ErrType} {b' : BlockState}
    (hInv : Inv E P B0 b) (hg : getFuel fuel b m = (r, b'))
    {n : String} {t : ErrType} (hl : lookupProp b n = some t) :
    ∃ t', lookupProp b' n = some t' := by
  obtain ⟨hInv', _, hup, hsub⟩ := getStep hfree fuel b m r b' hInv hg
  cases hf : b.cache.find? (fun kv => kv.1 == n) with
  | some kv =>
    have hk' := hup n (mem_cacheKeys_of_find? hf)
    obtain ⟨kv', hkv'⟩ := find?_of_mem_keys hk'
    exact ⟨kv'.2, by unfold lookupProp; rw [hkv']⟩
  | none =>
    unfold lookupProp at hl
    rw [hf] at hl
    by_cases hm : n ∈ protoMethodNames
    · have hnb : n ∉ cacheKeys b := not_mem_keys_of_find?_none hf
      have hnb' : n ∉ cacheKeys b' := fun hk => by
        rcases hsub n hk with h' | h'
        · exact hnb h'
        · exact h' hm
      refine ⟨.jsFn n, ?_⟩
      unfold lookupProp
      rw [find?_none_of_not_mem_keys hnb', if_pos hm]
    · rw [if_neg hm] at hl
      cases hl

/-- Running the `createAll` loop on a faithful Block keeps it faithful,
keeps every readable name readable, and makes every processed name
readable. -/
theorem goSpec {E : List (String × Desc)} {P : String} {B0 : BaseRef}
    (hfree : BaseNameFree E B0) :
    ∀ (ns : List String) (fuel : Nat) (b b₁ : BlockState) (u : Unit),
      Inv E P B0 b → createAllGo ns fuel b = (.ok u, b₁) →
      Inv E P B0 b₁ ∧
      (∀ n t, lookupProp b n = some t → ∃ t', lookupProp b₁ n = some t') ∧
      (∀ n, n ∈ ns → ∃ t, lookupProp b₁ n = some t) := by
  intro ns
  induction ns with
  | nil =>
    intro fuel b b₁ u hInv h
    rw [createAllGo] at h
    obtain ⟨h1, h2⟩ := Prod.mk.injEq .. |>.mp h
    subst h2
    exact ⟨hInv, fun n t hl => ⟨t, hl⟩, fun n hn => absurd hn (List.not_mem_nil n)⟩
  | cons m ns ih =>
    intro fuel b b₁ u hInv h
    rw [createAllGo] at h
    split at h
    · rename_i t₀ b₂ heq
      obtain ⟨iInv, ipers, idecl⟩ :=
        ih fuel b₂ b₁ u (getStep hfree fuel b m _ _ hInv heq).1 h
      have hm2 : lookupProp b₂ m = some t₀ := lookupAfterGet heq
      refine ⟨iInv, ?_, ?_⟩
      · intro n t hl
        obtain ⟨t', hl'⟩ := lookupPersist hfree hInv heq hl
        exact ipers n t' hl'
      · intro n hn
        rcases List.mem_cons.mp hn with hn | hn
        · subst hn
          obtain ⟨t', hl'⟩ := ipers n t₀ hm2
          exact ⟨t', hl'⟩
        · exact idecl n hn
    · exact absurd (congrArg Prod.fst h) (by simp)

theorem createdAfter {fuel : Nat} {b : BlockState} {u : Unit} {b₁ : BlockState}
    (h : createAllFuel fuel b = (.ok u, b₁)) : b₁.created = true := by
  unfold createAllFuel at h
  split at h
  · rename_i hc
    obtain ⟨h1, h2⟩ := Prod.mk.injEq .. |>.mp h
    subst h2
    exact hc
  · split at h
    · obtain ⟨h1, h2⟩ := Prod.mk.injEq .. |>.mp h
      subst h2
      rfl
    · exact absurd (congrArg Prod.fst h) (by simp)

theorem createAll_noop {fuel : Nat} {b : BlockState} (hc : b.created = true) :
    createAllFuel fuel b = (.ok (), b) := by
  unfold createAllFuel
  rw [if_pos hc]

theorem ceDefmessage_create (n : String) (p? : Option ErrType) (dm : JSVal)
    (a : Bool) (c : Option Construct) :
    (create n p? dm a c).ceDefmessage =
      if (dm = .null ∨ dm = .undefined) ∧ (p?.getD .rootError).hasCe
      then (p?.getD .rootError).ceDefmessage else dm := rfl

theorem ceConstruct_create (n : String) (p? : Option ErrType) (dm : JSVal)
    (a : Bool) (c : Option Construct) :
    (create n p? dm a c).ceConstruct =
      match c with
      | some c' => some c'
      | none => (p?.getD .rootError).ceConstruct := rfl

theorem getBase_keeps {b : BlockState} {m : String}
    (hmc : m ∉ cacheKeys b) (hmb : b.base ≠ .str m) :
    m ∉ cacheKeys (getBase b).2 ∧ (getBase b).2.base ≠ .str m := by
  cases hb : b.base with
  | str s =>
    rw [getBase_str hb]
    constructor
    · intro hk
      rcases keys_assocSet_sub hk with h | h
      · subst h
        exact hmb hb
      · exact hmc h
    · exact fun hcon => BaseRef.noConfusion hcon
  | fn t =>
    rw [getBase_fn hb]
    exact ⟨hmc, hmb⟩

/-- A name of a prototype method that is not shadowed and is not the
string base name can never become shadowed by a `get` call: the
assignment that would overwrite it is unreachable. -/
theorem methodKeysStable :
    ∀ (fuel : Nat) (b : BlockState) (n m : String),
      m ∈ protoMethodNames → m ∉ cacheKeys b → b.base ≠ .str m →
      m ∉ cacheKeys (getFuel fuel b n).2 ∧ (getFuel fuel b n).2.base ≠ .str m := by
  intro fuel
  induction fuel with
  | zero =>
    intro b n m hm hmc hmb
    exact ⟨hmc, hmb⟩
  | succ f ih =>
    intro b n m hm hmc hmb
    rw [getFuel]
    split
    · exact ⟨hmc, hmb⟩
    · rename_i heq
      have hnm : n ≠ m := fun hc => by
        subst hc
        exact absurd (lookupProp_none_elim heq).2 (fun hno => hno hm)
      split
      · split
        · rename_i hbase
          exact getBase_keeps hmc hmb
        · exact ⟨hmc, hmb⟩
      · split
        · constructor
          · intro hk
            rcases keys_setCache_sub hk with h | h
            · exact hnm h.symm
            · exact hmc h
          · exact hmb
        · obtain ⟨hg1, hg2⟩ := getBase_keeps hmc hmb
          constructor
          · intro hk
            rcases keys_setCache_sub hk with h | h
            · exact hnm h.symm
            · exact hg1 h
          · exact hg2
        · constructor
          · intro hk
            rcases keys_setCache_sub hk with h | h
            · exact hnm h.symm
            · exact hmc h
          · exact hmb
        · split
          · rename_i p b₁ heqr
            obtain ⟨ih1, ih2⟩ := ih b _ m hm hmc hmb
            rw [heqr] at ih1 ih2
            constructor
            · intro hk
              rcases keys_setCache_sub hk with h | h
              · exact hnm h.symm
              · exact ih1 h
            · exact ih2
          · rename_i e b₁ heqr
            obtain ⟨ih1, ih2⟩ := ih b _ m hm hmc hmb
            rw [heqr] at ih1 ih2
            exact ⟨ih1, ih2⟩
        · exact ⟨hmc, hmb⟩

/-! ## The claims -/

/-- C1: for every class produced by `create` (equivalently by `inherit`
or Block resolution, which call `create`), the recorded effective default
message is the value explicitly given in its own descriptor or, when that
value is null or undefined, the value of the nearest ancestor that
defines one; the recorded construction routine is the explicitly given
function or the nearest ancestor's. Both are resolved into the immutable
record at creation time and never re-evaluated. -/
theorem c1_creation_time_inheritance :
    (∀ (p : ErrType) (n : String) (dm : JSVal) (a : Bool) (c : Option Construct),
      p.inherit n dm a c = create n (some p) dm a c) ∧
    (∀ (ds : List ChainDesc) (v : JSVal), specNearestDefmessage ds = some v →
      (buildChain ds).ceDefmessage = v) ∧
    (∀ ds : List ChainDesc, (buildChain ds).ceConstruct = specNearestConstruct ds) := by
  refine ⟨fun p n dm a c => rfl, ?_, ?_⟩
  · intro ds
    induction ds with
    | nil =>
      intro v hv
      rw [specNearestDefmessage] at hv
      cases hv
    | cons d ds ih =>
      intro v hv
      rw [specNearestDefmessage] at hv
      by_cases hd : d.dm = .null ∨ d.dm = .undefined
      · rw [if_pos hd] at hv
        cases ds with
        | nil =>
          rw [specNearestDefmessage] at hv
          cases hv
        | cons d' ds' =>
          rw [buildChain, ceDefmessage_create, if_pos ⟨hd, rfl⟩]
          exact ih v hv
      · rw [if_neg hd] at hv
        injection hv with hv'
        subst hv'
        rw [buildChain, ceDefmessage_create, if_neg (fun hcon => hd hcon.1)]
  · intro ds
    induction ds with
    | nil => rfl
    | cons d ds ih =>
      rw [buildChain, ceConstruct_create, specNearestConstruct]
      cases hc : d.construct with
      | some c => rfl
      | none => exact ih

/-- Witness for C1 at a concrete two-link chain whose newest link gives
an explicit null message and whose parent defines one. -/
theorem c1_creation_time_inheritance_witness :
    specNearestDefmessage
      [⟨"api.Child", .null, false, none⟩,
       ⟨"api.Parent", .str "pm", false, some (.userFn 7)⟩] = some (.str "pm") ∧
    (buildChain
      [⟨"api.Child", .null, false, none⟩,
       ⟨"api.Parent", .str "pm", false, some (.userFn 7)⟩]).ceDefmessage = .str "pm" :=
  ⟨rfl, c1_creation_time_inheritance.2.1 _ (.str "pm") rfl⟩

/-- C2: instantiating a class created with the abstract flag raises the
built-in AbstractError carrying the class name, for every argument list
and every recorded construction routine — the routine never runs, as the
resulting instance records — while instantiating a non-abstract child of
an abstract class succeeds. -/
theorem c2_abstract_instantiation :
    (∀ (n : String) (p : ErrType) (dm : JSVal) (c : Option Construct) (args : List JSVal),
      instantiate (.mk n p dm true c) args = .error (abstractInstance n)) ∧
    (∀ n : String, (abstractInstance n).typeName = "customErrors.AbstractError" ∧
      (abstractInstance n).errorname = some (.str n) ∧
      effMessage (abstractInstance n) = .str ("Error " ++ n ++ " is abstract") ∧
      (abstractInstance n).ranUser = none) ∧
    (∀ n : String, instantiate AbstractError [.str n] = .ok (abstractInstance n)) ∧
    (∀ (n : String) (p : ErrType) (dm : JSVal) (c : Option Construct) (args : List JSVal),
      p.isAbstract = true → ∃ i, instantiate (.mk n p dm false c) args = .ok i) := by
  refine ⟨fun n p dm c args => rfl, fun n => ⟨rfl, rfl, rfl, rfl⟩, fun n => rfl, ?_⟩
  intro n p dm c args hp
  cases c with
  | some c' => exact ⟨_, rfl⟩
  | none =>
    cases hv : args.headD .undefined with
    | undefined => exact ⟨_, by rw [instantiate, hv]; rfl⟩
    | null => exact ⟨_, by rw [instantiate, hv]; rfl⟩
    | str s => exact ⟨_, by rw [instantiate, hv]; rfl⟩
    | jsBool bb => exact ⟨_, by rw [instantiate, hv]; rfl⟩

/-- Witness for C2: a concrete abstract parent and a concrete
non-abstract child whose instantiation succeeds. -/
theorem c2_abstract_instantiation_witness :
    (create "api.Base" none (.str "") true none).isAbstract = true ∧
    ∃ i, instantiate (.mk "api.X" (create "api.Base" none (.str "") true none)
      (.str "") false none) [] = .ok i :=
  ⟨rfl, c2_abstract_instantiation.2.2.2 "api.X" _ (.str "") none [] rfl⟩

/-- C5: a single lazy `get("Invalid")` on the Block declared with
`{NotFound: [true, "missing"], Invalid: ["NotFound", "bad input"]}`,
namespace `"api"`, base `"Base"`, creates, in cache order, the abstract
base `"api.Base"` with empty default message, then `"api.NotFound"` with
the base as parent and message `"missing"`, then `"api.Invalid"` with
`api.NotFound` as parent and message `"bad input"` — leaving exactly
three stored entries. -/
theorem c5_example_scenario :
    getFuel 5 blockC5 "Invalid" =
      (.ok apiInvalid,
       { blockC5 with
           base := BaseRef.fn apiBase
           cache := [("Base", apiBase), ("NotFound", apiNotFound),
                     ("Invalid", apiInvalid)] }) ∧
    apiBase = .mk "api.Base" .rootError (.str "") true none ∧
    apiNotFound = .mk "api.NotFound" apiBase (.str "missing") false none ∧
    apiInvalid = .mk "api.Invalid" apiNotFound (.str "bad input") false none :=
  ⟨rfl, rfl, rfl, rfl⟩

/-- Counterexample to C3 as stated: on the Block declaring both a
descriptor named `"Base"` and the base name `"Base"`, `get("Base")`
first resolves the descriptor, but after an intervening `get("X")`
materializes the base over the same property, a second `get("Base")`
returns a different class — the cache entry was overwritten, not the
sole point of truth. -/
theorem c3_identity_counterexample :
    (getFuel 5 blockColl "Base").1
      = .ok (.mk "api.Base" .rootError .undefined false none) ∧
    (getFuel 5 ((getFuel 5 (getFuel 5 blockColl "Base").2 "X").2) "Base").1
      = .ok apiBase ∧
    ErrType.mk "api.Base" .rootError .undefined false none ≠ apiBase :=
  ⟨rfl, rfl, by decide⟩

/-- C3 amended: when `get(name)` succeeds, the resolved class is stored
under `name` (readable as a function-valued property) before being
returned, and an immediately following `get(name)` returns the identical
class and leaves the state unchanged. On a Block whose base name is
neither a declared descriptor key nor a method name, every readable
name's stored value moreover survives any later `get` unchanged; without
that proviso a base-name collision can overwrite the entry, so it is not
in general the sole point of truth thereafter. -/
theorem c3_cached_resolution :
    (∀ (fuel fuel' : Nat) (b : BlockState) (name : String) (t : ErrType)
       (b' : BlockState), getFuel fuel b name = (.ok t, b') →
      lookupProp b' name = some t ∧
      getFuel (fuel' + 1) b' name = (.ok t, b')) ∧
    (∀ (E : List (String × Desc)) (P : String) (B0 : BaseRef) (b : BlockState)
       (fuel : Nat) (m : String) (r : Except GetErr ErrType) (b' : BlockState)
       (n : String) (t : ErrType),
      BaseNameFree E B0 → Inv E P B0 b → getFuel fuel b m = (r, b') →
      lookupProp b n = some t → lookupProp b' n = some t) := by
  constructor
  · intro fuel fuel' b name t b' h
    have hl := lookupAfterGet h
    refine ⟨hl, ?_⟩
    rw [getFuel, hl]
  · intro E P B0 b fuel m r b' n t hfree hInv hg hl
    obtain ⟨t', hl'⟩ := lookupPersist hfree hInv hg hl
    obtain ⟨f1, hr1⟩ := lookupConsistent hInv hl
    obtain ⟨f2, hr2⟩ :=
      lookupConsistent (getStep hfree fuel b m r b' hInv hg).1 hl'
    rw [hl', rres_det E P B0 hr2 hr1]

/-- Witness for C3 amended, on the example Block: `get("Invalid")`
stores the class, an immediate repeat returns it unchanged, and the
method property `"get"` survives the resolution with its value. -/
theorem c3_cached_resolution_witness :
    (lookupProp (getFuel 5 blockC5 "Invalid").2 "Invalid" = some apiInvalid ∧
     getFuel 1 (getFuel 5 blockC5 "Invalid").2 "Invalid"
       = (.ok apiInvalid, (getFuel 5 blockC5 "Invalid").2)) ∧
    lookupProp (getFuel 5 blockC5 "Invalid").2 "get" = some (.jsFn "get") :=
  ⟨c3_cached_resolution.1 5 0 blockC5 "Invalid" apiInvalid _ rfl,
   c3_cached_resolution.2 c5errors "api." (.str "Base") blockC5 5 "Invalid" _ _
     "get" (.jsFn "get")
     (fun s hs => by injection hs with h; subst h; exact ⟨rfl, by decide⟩)
     ⟨rfl, rfl, Or.inl rfl, fun kv hkv => absurd hkv (List.not_mem_nil kv)⟩
     rfl rfl⟩

/-- Counterexample to C6 as stated: `"get"` is neither a declared
descriptor key of the example Block nor its base name, yet `get("get")`
does not raise NameNotFound — it returns the Block's own `get` method. -/
theorem c6_counterexample :
    findDesc blockC5.errors "get" = none ∧
    blockC5.base ≠ .str "get" ∧
    getFuel 1 blockC5 "get" = (.ok (.jsFn "get"), blockC5) :=
  ⟨rfl, by decide, rfl⟩

/-- C6 amended: for every name that is not a key of the descriptor map,
does not equal the Block's (string) base name, and is not already a
function-valued property of the Block (a cached class or an inherited
method), `get` throws the NameNotFound error carrying the prefixed name
and leaves the Block unchanged, so the name stays unresolved; the
built-in's routine stamps the name into `errorname` and the message. -/
theorem c6_name_not_found (fuel : Nat) (b : BlockState) (name : String)
    (hl : lookupProp b name = none) (hd : findDesc b.errors name = none)
    (hb : b.base ≠ .str name) :
    getFuel (fuel + 1) b name
      = (.error (.thrown (notFoundInstance (b.pfx ++ name))), b) ∧
    (notFoundInstance (b.pfx ++ name)).errorname = some (.str (b.pfx ++ name)) ∧
    effMessage (notFoundInstance (b.pfx ++ name))
      = .str ("Error " ++ (b.pfx ++ name) ++ " is not found in block") ∧
    (∀ s, instantiate ErrorNotFoundTy [.str s] = .ok (notFoundInstance s)) := by
  refine ⟨?_, rfl, rfl, fun s => rfl⟩
  rw [getFuel, hl, hd, if_neg hb]

/-- Witness for C6 amended at the unregistered name `"Missing"` on the
example Block. -/
theorem c6_name_not_found_witness :
    (lookupProp blockC5 "Missing" = none ∧
     findDesc blockC5.errors "Missing" = none ∧
     blockC5.base ≠ .str "Missing") ∧
    getFuel 1 blockC5 "Missing"
      = (.error (.thrown (notFoundInstance "api.Missing")), blockC5) :=
  ⟨⟨rfl, rfl, by decide⟩,
   (c6_name_not_found 0 blockC5 "Missing" rfl rfl (by decide)).1⟩

/-- Counterexample to C4 as stated, in two parts. A function-valued
parent reference is not used as the parent of the resolved type: the
function itself is returned as the resolved type (its name stays `"T"`,
not `"api.X"`, and its parent is the root, not itself). An absent parent
reference in the object form does not resolve to the root: the resolved
type's parent is the Block's abstract base `api.Base`. -/
theorem c4_counterexample :
    ((getFuel 2 blockFnDesc "X").1 = .ok plainT ∧
     plainT.tyName = "T" ∧ ("T" : String) ≠ "api.X" ∧
     plainT.parentOf = some .rootError ∧ ErrType.rootError ≠ plainT) ∧
    ((getFuel 2 blockObjNoParent "Y").1
       = .ok (create "api.Y" (some apiBase) (.str "m") false none) ∧
     (create "api.Y" (some apiBase) (.str "m") false none).parentOf = some apiBase ∧
     apiBase ≠ .rootError) :=
  ⟨⟨rfl, rfl, by decide, rfl, by decide⟩, ⟨rfl, rfl, by decide⟩⟩

/-- C4 amended: inside `get`, for a registered name that is not already a
function-valued property, the parent reference is dispatched as follows.
A function value is stored and returned as the resolved type itself (no
new type is created, the descriptor's remaining fields are ignored).
Boolean true — and an absent parent field in the object form, which
normalizes to true — resolves to the Block's base type. False resolves to
no explicit parent, so the created type's parent is the root system error
type. A string resolves by recursively calling `get` on that string in
the same Block. Any other value throws a NameNotFound whose constructor
argument says the prefixed name is not found in the block. -/
theorem c4_parent_resolution :
    (∀ (dm : JSVal) (ab : Bool) (c : Option Construct),
      descParams (.obj none dm ab c) = (.pb true, dm, ab, c)) ∧
    (∀ (fuel : Nat) (b : BlockState) (name : String) (desc : Desc)
       (t : ErrType) (dm : JSVal) (ab : Bool) (con : Option Construct),
      lookupProp b name = none → findDesc b.errors name = some desc →
      descParams desc = (.fn t, dm, ab, con) →
      getFuel (fuel + 1) b name = (.ok t, setCache b name t)) ∧
    (∀ (fuel : Nat) (b : BlockState) (name : String) (desc : Desc)
       (dm : JSVal) (ab : Bool) (con : Option Construct),
      lookupProp b name = none → findDesc b.errors name = some desc →
      descParams desc = (.pb true, dm, ab, con) →
      getFuel (fuel + 1) b name
        = (.ok (create (b.pfx ++ name) (some (getBase b).1) dm ab con),
           setCache (getBase b).2 name
             (create (b.pfx ++ name) (some (getBase b).1) dm ab con))) ∧
    (∀ (fuel : Nat) (b : BlockState) (name : String) (desc : Desc)
       (dm : JSVal) (ab : Bool) (con : Option Construct),
      lookupProp b name = none → findDesc b.errors name = some desc →
      descParams desc = (.pb false, dm, ab, con) →
      getFuel (fuel + 1) b name
        = (.ok (create (b.pfx ++ name) none dm ab con),
           setCache b name (create (b.pfx ++ name) none dm ab con)) ∧
      (create (b.pfx ++ name) none dm ab con).parentOf = some .rootError) ∧
    (∀ (fuel : Nat) (b : BlockState) (name : String) (desc : Desc)
       (s : String) (dm : JSVal) (ab : Bool) (con : Option Construct),
      lookupProp b name = none → findDesc b.errors name = some desc →
      descParams desc = (.ps s, dm, ab, con) →
      getFuel (fuel + 1) b name
        = (match getFuel fuel b s with
           | (.ok p, b₁) =>
             (.ok (create (b.pfx ++ name) (some p) dm ab con),
              setCache b₁ name (create (b.pfx ++ name) (some p) dm ab con))
           | (.error e, b₁) => (.error e, b₁))) ∧
    (∀ (fuel : Nat) (b : BlockState) (name : String) (desc : Desc)
       (dm : JSVal) (ab : Bool) (con : Option Construct),
      lookupProp b name = none → findDesc b.errors name = some desc →
      descParams desc = (.other, dm, ab, con) →
      getFuel (fuel + 1) b name
        = (.error (.thrown (notFoundInstance
            ("Error " ++ (b.pfx ++ name) ++ " is not found in the block"))), b)) := by
  refine ⟨fun dm ab c => rfl, ?_, ?_, ?_, ?_, ?_⟩
  · intro fuel b name desc t dm ab con hl hd heqd
    rw [getFuel]
    simp only [hl, hd, heqd]
  · intro fuel b name desc dm ab con hl hd heqd
    rw [getFuel]
    simp only [hl, hd, heqd]
  · intro fuel b name desc dm ab con hl hd heqd
    refine ⟨?_, rfl⟩
    rw [getFuel]
    simp only [hl, hd, heqd]
  · intro fuel b name desc s dm ab con hl hd heqd
    rw [getFuel]
    simp only [hl, hd, heqd]
  · intro fuel b name desc dm ab con hl hd heqd
    rw [getFuel]
    simp only [hl, hd, heqd]

/-- Witness for C4 amended: each dispatch case exercised on a concrete
Block. -/
theorem c4_parent_resolution_witness :
    getFuel 1 blockFnDesc "X" = (.ok plainT, setCache blockFnDesc "X" plainT) ∧
    getFuel 1 blockC5 "NotFound"
      = (.ok (create (blockC5.pfx ++ "NotFound") (some (getBase blockC5).1)
           (.str "missing") false none),
         setCache (getBase blockC5).2 "NotFound"
           (create (blockC5.pfx ++ "NotFound") (some (getBase blockC5).1)
             (.str "missing") false none)) ∧
    (getFuel 1 blockColl "Base"
      = (.ok (create (blockColl.pfx ++ "Base") none .undefined false none),
         setCache blockColl "Base"
           (create (blockColl.pfx ++ "Base") none .undefined false none)) ∧
     (create (blockColl.pfx ++ "Base") none .undefined false none).parentOf
       = some .rootError) ∧
    getFuel 2 blockC5 "Invalid"
      = (match getFuel 1 blockC5 "NotFound" with
         | (.ok p, b₁) =>
           (.ok (create (blockC5.pfx ++ "Invalid") (some p) (.str "bad input") false none),
            setCache b₁ "Invalid"
              (create (blockC5.pfx ++ "Invalid") (some p) (.str "bad input") false none))
         | (.error e, b₁) => (.error e, b₁)) ∧
    getFuel 1 blockBadDesc "X"
      = (.error (.thrown (notFoundInstance
          ("Error " ++ (blockBadDesc.pfx ++ "X") ++ " is not found in the block"))),
         blockBadDesc) :=
  ⟨c4_parent_resolution.2.1 0 blockFnDesc "X" (.bare (.fn plainT)) plainT
     .undefined false none rfl rfl rfl,
   c4_parent_resolution.2.2.1 0 blockC5 "NotFound"
     (.arr (.pb true) (.str "missing") false) (.str "missing") false none rfl rfl rfl,
   c4_parent_resolution.2.2.2.1 0 blockColl "Base"
     (.arr (.pb false) .undefined false) .undefined false none rfl rfl rfl,
   c4_parent_resolution.2.2.2.2.1 1 blockC5 "Invalid"
     (.arr (.ps "NotFound") (.str "bad input") false) "NotFound"
     (.str "bad input") false none rfl rfl rfl,
   c4_parent_resolution.2.2.2.2.2 0 blockBadDesc "X" (.bare .other)
     .undefined false none rfl rfl rfl⟩

/-- Counterexample to C7 as stated: on the base/descriptor-collision
Block, after an eager `createAll`, the declared name `"Base"` resolves to
the abstract materialized base, while a lazy `get("Base")` on the fresh
Block resolves the declared descriptor to a different class. -/
theorem c7_counterexample :
    (createAllFuel 5 blockColl).1 = .ok () ∧
    (getFuel 1 (createAllFuel 5 blockColl).2 "Base").1 = .ok apiBase ∧
    (getFuel 5 blockColl "Base").1
      = .ok (.mk "api.Base" .rootError .undefined false none) ∧
    apiBase ≠ .mk "api.Base" .rootError .undefined false none :=
  ⟨rfl, rfl, rfl, by decide⟩

/-- C7 amended: a second `createAll` after a successful one has no
effect (the `created` flag short-circuits it); and provided the Block's
string base name is neither a declared descriptor key nor a method name,
after an eager `createAll` from a fresh state every declared name —
including transitive string dependencies resolved out of declared order —
resolves in one step to exactly the class a lazy `get` on the fresh
Block would produce. Without that proviso, a base-name collision makes
the eager and lazy results differ. -/
theorem c7_createAll :
    (∀ (fuel fuel' : Nat) (b : BlockState) (u : Unit) (b₁ : BlockState),
      createAllFuel fuel b = (.ok u, b₁) →
      createAllFuel fuel' b₁ = (.ok (), b₁)) ∧
    (∀ (b0 : BlockState) (fuel : Nat) (u : Unit) (b1 : BlockState),
      BaseNameFree b0.errors b0.base → b0.cache = [] → b0.created = false →
      createAllFuel fuel b0 = (.ok u, b1) →
      ∀ n, n ∈ b0.errors.map Prod.fst →
        ∃ t, getFuel 1 b1 n = (.ok t, b1) ∧
          ∀ (f' : Nat) (t' : ErrType) (b' : BlockState),
            getFuel f' b0 n = (.ok t', b') → t' = t) := by
  constructor
  · intro fuel fuel' b u b₁ h
    exact createAll_noop (createdAfter h)
  · intro b0 fuel u b1 hfree hcache hcreated h n hn
    unfold createAllFuel at h
    rw [if_neg (fun hcon => Bool.false_ne_true (hcreated ▸ hcon))] at h
    split at h
    · rename_i u' b₂ heqg
      obtain ⟨h1, h2⟩ := Prod.mk.injEq .. |>.mp h
      subst h2
      have hInv0 : Inv b0.errors b0.pfx b0.base b0 :=
        ⟨rfl, rfl, Or.inl rfl,
         fun kv hkv => absurd (hcache ▸ hkv) (List.not_mem_nil kv)⟩
      obtain ⟨gInv, gpers, gdecl⟩ :=
        goSpec hfree (b0.errors.map Prod.fst) fuel b0 b₂ u' hInv0 heqg
      obtain ⟨t, hlt⟩ := gdecl n hn
      have hlt1 : lookupProp { b₂ with created := true } n = some t := hlt
      have gInv1 : Inv b0.errors b0.pfx b0.base { b₂ with created := true } :=
        ⟨gInv.1, gInv.2.1, gInv.2.2.1, gInv.2.2.2⟩
      refine ⟨t, ?_, ?_⟩
      · rw [getFuel, hlt1]
      · intro f' t' b' h'
        obtain ⟨f1, hr1⟩ := lookupConsistent gInv1 hlt1
        obtain ⟨f2, hr2⟩ := (getStep hfree f' b0 n _ _ hInv0 h').2.1 t' rfl
        exact rres_det b0.errors b0.pfx b0.base hr2 hr1
    · exact absurd (congrArg Prod.fst h) (by simp)

/-- Witness for C7 amended on the example Block: `createAll` is a no-op
the second time, and the transitively declared `"Invalid"` resolves
eagerly to its lazy value. -/
theorem c7_createAll_witness :
    createAllFuel 1 (createAllFuel 5 blockC5).2
      = (.ok (), (createAllFuel 5 blockC5).2) ∧
    (∃ t, getFuel 1 (createAllFuel 5 blockC5).2 "Invalid"
        = (.ok t, (createAllFuel 5 blockC5).2) ∧
      ∀ (f' : Nat) (t' : ErrType) (b' : BlockState),
        getFuel f' blockC5 "Invalid" = (.ok t', b') → t' = t) :=
  ⟨c7_createAll.1 5 1 blockC5 () _ rfl,
   c7_createAll.2 blockC5 5 () _
     (fun s hs => by
       rw [show blockC5.base = BaseRef.str "Base" from rfl] at hs
       injection hs with hseq
       subst hseq
       exact ⟨rfl, by decide⟩)
     rfl rfl rfl "Invalid" (by decide)⟩

/-- Counterexample to C8 as stated: raising a declared abstract type
throws, but the thrown instance is not an instance of the resolved type —
it is the built-in AbstractError. -/
theorem c8_counterexample :
    (getFuel 5 blockAbsDesc "X").1 = .ok (.mk "api.X" apiBase (.str "") true none) ∧
    (raiseFuel 5 blockAbsDesc "X" .undefined).1 = .ok (abstractInstance "api.X") ∧
    (abstractInstance "api.X").typeName = "customErrors.AbstractError" ∧
    (ErrType.mk "api.X" apiBase (.str "") true none).tyName = "api.X" ∧
    ("customErrors.AbstractError" : String) ≠ "api.X" :=
  ⟨rfl, rfl, rfl, rfl, by decide⟩

/-- C8 amended: `raise(name, message)` resolves `name` via `get` and
immediately throws the outcome of constructing the resolved type with
`message` — the constructed instance itself (hence an instance of the
resolved type) whenever construction succeeds, or the error construction
raises (the AbstractError, for an abstract resolved type); a failing
`get` propagates its own error instead. In particular, on the example
Block, `raise("NotFound")` with no message throws an instance whose type
name is `"api.NotFound"` and whose message is the default `"missing"`. -/
theorem c8_raise :
    (∀ (fuel : Nat) (b : BlockState) (name : String) (msg : JSVal)
       (t : ErrType) (b₁ : BlockState),
      getFuel fuel b name = (.ok t, b₁) →
      raiseFuel fuel b name msg = (.ok (thrownOf t msg), b₁)) ∧
    (∀ (fuel : Nat) (b : BlockState) (name : String) (msg : JSVal)
       (e : GetErr) (b₁ : BlockState),
      getFuel fuel b name = (.error e, b₁) →
      raiseFuel fuel b name msg = (.error e, b₁)) ∧
    (∀ (t : ErrType) (msg : JSVal) (i : Instance),
      instantiate t [msg] = .ok i → thrownOf t msg = i) ∧
    (raiseFuel 5 blockC5 "NotFound" .undefined).1
      = .ok { typeName := "api.NotFound", protoMessage := .str "missing" } ∧
    effMessage { typeName := "api.NotFound", protoMessage := JSVal.str "missing" }
      = .str "missing" := by
  refine ⟨?_, ?_, ?_, rfl, rfl⟩
  · intro fuel b name msg t b₁ h
    unfold raiseFuel
    rw [h]
  · intro fuel b name msg e b₁ h
    unfold raiseFuel
    rw [h]
  · intro t msg i h
    unfold thrownOf
    rw [h]

/-- Witness for C8 amended: the successful, failing and construction
conjuncts at concrete inputs on the example Block. -/
theorem c8_raise_witness :
    raiseFuel 5 blockC5 "NotFound" .undefined
      = (.ok (thrownOf apiNotFound .undefined), (getFuel 5 blockC5 "NotFound").2) ∧
    raiseFuel 1 blockC5 "Missing" .undefined
      = (.error (.thrown (notFoundInstance "api.Missing")), blockC5) ∧
    thrownOf apiNotFound .undefined
      = { typeName := "api.NotFound", protoMessage := .str "missing" } :=
  ⟨c8_raise.1 5 blockC5 "NotFound" .undefined apiNotFound _ rfl,
   c8_raise.2.1 1 blockC5 "Missing" .undefined
     (.thrown (notFoundInstance "api.Missing")) blockC5 rfl,
   c8_raise.2.2.1 apiNotFound .undefined _ rfl⟩

/-- Counterexample to C9 as stated (its overwrite clause): a declared
descriptor whose key is the method name `"raise"` is never resolved —
even an eager `createAll` leaves the store empty and `get("raise")`
still returns the method, so no overwrite of the method ever happens. -/
theorem c9_counterexample :
    findDesc blockMethodKey.errors "raise"
      = some (.arr (.pb true) (.str "boom") false) ∧
    createAllFuel 5 blockMethodKey
      = (.ok (), { blockMethodKey with created := true }) ∧
    ({ blockMethodKey with created := true } : BlockState).cache = [] ∧
    getFuel 1 { blockMethodKey with created := true } "raise"
      = (.ok (.jsFn "raise"), { blockMethodKey with created := true }) :=
  ⟨rfl, rfl, rfl, rfl⟩

/-- C9 amended: `get(name)` returns any function-valued property of the
Block immediately — the prototype methods `get`, `raise`, `createAll`
and `getBase` included — without consulting the descriptor map and
without raising NameNotFound, even for names with no declared
descriptor. Consequently a declared descriptor under an unshadowed
method name is never resolved, and (unless the string base name itself
is a method name) the method is never overwritten: the `this[name]`
assignment is unreachable for such names. -/
theorem c9_method_properties :
    ("get" ∈ protoMethodNames ∧ "raise" ∈ protoMethodNames ∧
     "createAll" ∈ protoMethodNames ∧ "getBase" ∈ protoMethodNames) ∧
    (∀ (fuel : Nat) (b : BlockState) (name : String) (t : ErrType),
      lookupProp b name = some t → getFuel (fuel + 1) b name = (.ok t, b)) ∧
    (∀ (b : BlockState) (name : String), name ∈ protoMethodNames →
      name ∉ cacheKeys b → lookupProp b name = some (.jsFn name)) ∧
    (∀ (fuel : Nat) (b : BlockState) (n m : String),
      m ∈ protoMethodNames → m ∉ cacheKeys b → b.base ≠ .str m →
      m ∉ cacheKeys (getFuel fuel b n).2 ∧
      (getFuel fuel b n).2.base ≠ .str m) := by
  refine ⟨by decide, ?_, ?_, methodKeysStable⟩
  · intro fuel b name t h
    rw [getFuel, h]
  · intro b name h1 h2
    unfold lookupProp
    rw [find?_none_of_not_mem_keys h2, if_pos h1]

/-- Witness for C9 amended: on the Block declaring a descriptor under
`"raise"`, the method is returned at once and stays unshadowed through a
`get`. -/
theorem c9_method_properties_witness :
    getFuel 1 blockMethodKey "raise" = (.ok (.jsFn "raise"), blockMethodKey) ∧
    lookupProp blockMethodKey "raise" = some (.jsFn "raise") ∧
    ("raise" ∉ cacheKeys (getFuel 5 blockMethodKey "raise").2 ∧
     (getFuel 5 blockMethodKey "raise").2.base ≠ .str "raise") :=
  ⟨c9_method_properties.2.1 0 blockMethodKey "raise" (.jsFn "raise") rfl,
   c9_method_properties.2.2.1 blockMethodKey "raise" (by decide) (by decide),
   c9_method_properties.2.2.2 5 blockMethodKey "raise" "raise" (by decide)
     (by decide) (by decide)⟩

/-- C10: the Block constructor's base normalization — `undefined`, `true`
and `null` become the name `"Base"`; `false` becomes the root `Error`
class used directly; a function is kept as-is; any other value (for
example a number) is coerced to its string representation and treated as
a base-type name — and a string base materializes on first use as a
fresh abstract class named prefix-plus-name. -/
theorem c10_base_normalization :
    normalizeBase .undefined = .str "Base" ∧
    normalizeBase .null = .str "Base" ∧
    normalizeBase (.jsBool true) = .str "Base" ∧
    normalizeBase (.jsBool false) = .fn .rootError ∧
    (∀ t : ErrType, normalizeBase (.fnVal t) = .fn t) ∧
    (∀ s : String, normalizeBase (.jsStr s) = .str s) ∧
    (∀ n : Int, normalizeBase (.num n) = .str (toString n)) ∧
    (∀ (fuel : Nat) (E : List (String × Desc)) (ns : String) (base : BaseArg),
      ((mkBlock fuel E ns base true).2).base = normalizeBase base) ∧
    (∀ (b : BlockState) (s : String), b.base = .str s →
      (getBase b).1 = create (b.pfx ++ s) none (.str "") true none ∧
      (create (b.pfx ++ s) none (.str "") true none).isAbstract = true) := by
  refine ⟨rfl, rfl, rfl, rfl, fun t => rfl, fun s => rfl, fun n => rfl,
    fun fuel E ns base => rfl, ?_⟩
  intro b s hb
  rw [getBase_str hb]
  exact ⟨rfl, rfl⟩

/-- Witness for C10 at the example Block, whose base was given as the
string `"Base"`. -/
theorem c10_base_normalization_witness :
    blockC5.base = .str "Base" ∧
    ((getBase blockC5).1 = create (blockC5.pfx ++ "Base") none (.str "") true none ∧
     (create (blockC5.pfx ++ "Base") none (.str "") true none).isAbstract = true) :=
  ⟨rfl, c10_base_normalization.2.2.2.2.2.2.2.2 blockC5 "Base" rfl⟩

end CustomErrors

